import Mathlib

/-!
# Verification of the sound_server voice-chat client core

Shallow embedding of the client's audio pipeline and session state machine:

* `AudioProcessorWorklet` (audio-processor worklet): frame accumulation
  (`process`, `sendBuffer`, `flushBuffer`);
* `VoiceChatApp` PCM codec (`floatToInt16`, the int16-to-float playback loop,
  `arrayBufferToBase64` / the `atob` decode loop);
* the playback scheduling of `playAudio`;
* the session state machine (`connect` / websocket handlers / `disconnect` /
  `startRecording` / `stopRecording` / `sendAudioData`);
* the incoming-message dispatch (`onmessage` / `handleWebSocketMessage`).

Samples are modelled as rationals (`ℚ`); JavaScript numbers that can be `NaN`
or infinite are modelled by `JSNum`.  Machine 16-bit integer conversion is
modelled by explicit `% 65536` wrapping on `ℤ`.
-/

/-! ## Frame Accumulator (audio-processor worklet)

`this.buffer` is an ordered list of samples; `this.bufferSize = 4096`.
`process` appends the input block and, if the buffer has reached `bufferSize`,
calls `sendBuffer` once, which emits `buffer.slice(0, 4096)` and keeps
`buffer.slice(4096)`.  `flushBuffer` emits the whole remaining buffer when it
is non-empty. Emitted frames are recorded in emission order in `frames`. -/

def bufferSize : Nat := 4096

structure AccSt where
  buffer : List ℚ
  frames : List (List ℚ)
deriving Repr, DecidableEq

def initAcc : AccSt := ⟨[], []⟩

def sendBuffer (s : AccSt) : AccSt :=
  { buffer := s.buffer.drop bufferSize
    frames := s.frames ++ [s.buffer.take bufferSize] }

def process (s : AccSt) (block : List ℚ) : AccSt :=
  let s' : AccSt := { s with buffer := s.buffer ++ block }
  if bufferSize ≤ s'.buffer.length then sendBuffer s' else s'

def flushBuffer (s : AccSt) : AccSt :=
  if s.buffer.isEmpty then s else { buffer := [], frames := s.frames ++ [s.buffer] }

/-- Deliver a sequence of blocks to `process`, then `flushBuffer`. -/
def runAcc (blocks : List (List ℚ)) : AccSt :=
  flushBuffer (blocks.foldl process initAcc)

/-! ## PCM codec -/

/-- JavaScript truncation toward zero (`ToIntegerOrInfinity` on a finite
number). -/
def truncQ (q : ℚ) : ℤ := if 0 ≤ q then ⌊q⌋ else ⌈q⌉

/-- Wrap an integer into signed 16-bit range the way an `Int16Array` store
does (`ToInt16`: modulo 2^16, then reinterpret as signed). -/
def wrapInt16 (n : ℤ) : ℤ := (n + 32768) % 65536 - 32768

/-- A JavaScript number: a finite rational, `NaN`, or an infinity. -/
inductive JSNum where
  | num (q : ℚ)
  | nan
  | inf
  | negInf
deriving Repr, DecidableEq

/-- `Math.min(1, x)` with JavaScript `NaN`/infinity semantics. -/
def jsMinOne : JSNum → JSNum
  | .num q => .num (min 1 q)
  | .nan => .nan
  | .inf => .num 1
  | .negInf => .negInf

/-- `Math.max(-1, x)` with JavaScript `NaN`/infinity semantics. -/
def jsMaxNegOne : JSNum → JSNum
  | .num q => .num (max (-1) q)
  | .nan => .nan
  | .inf => .inf
  | .negInf => .num (-1)

/-- `Math.max(-1, Math.min(1, x))` — the clamp in `floatToInt16`. -/
def clampSample (x : JSNum) : JSNum := jsMaxNegOne (jsMinOne x)

/-- One sample of `floatToInt16`: clamp, scale negatives by 32768 and
non-negatives by 32767, store into an `Int16Array` slot (`ToInt16`: `NaN`
and infinities become 0, finite values truncate toward zero and wrap). -/
def floatToInt16Sample (x : JSNum) : ℤ :=
  match clampSample x with
  | .num q => wrapInt16 (truncQ (if q < 0 then q * 32768 else q * 32767))
  | .nan => 0
  | .inf => 0
  | .negInf => 0

/-- `floatToInt16` over a whole input array. -/
def floatToInt16 (l : List JSNum) : List ℤ := l.map floatToInt16Sample

/-- One sample of the playback decode loop: `int16Array[i] / 32768.0`. -/
def int16ToFloatSample (n : ℤ) : ℚ := (n : ℚ) / 32768

/-- The playback decode loop over a whole int16 array. -/
def int16ToFloat (l : List ℤ) : List ℚ := l.map int16ToFloatSample

/-- The clamp restricted to finite inputs. -/
def clampQ (f : ℚ) : ℚ := max (-1) (min 1 f)

/-- The scaled, truncated (but not yet wrapped) encoder value on finite
inputs. -/
def rawInt16 (f : ℚ) : ℤ :=
  truncQ (if clampQ f < 0 then clampQ f * 32768 else clampQ f * 32767)

/-! ## Transport text encoding

`arrayBufferToBase64` builds a binary string from the bytes and calls `btoa`;
the playback path calls `atob` and reads the character codes back.  Both are
modelled here directly on byte lists: `arrayBufferToBase64` is standard
base64 with `=` padding, `atobBytes` is the `atob` + `charCodeAt` loop. -/

def b64chars : List Char :=
  "ABCDEFGHIJKLMNOPQRSTUVWXYZabcdefghijklmnopqrstuvwxyz0123456789+/".toList

def encodeSextet (n : Nat) : Char := b64chars.getD n 'A'

def decodeChar (c : Char) : Option Nat :=
  let i := b64chars.indexOf c
  if i < b64chars.length then some i else none

def arrayBufferToBase64 : List Nat → List Char
  | [] => []
  | [a] => [encodeSextet (a / 4), encodeSextet (a % 4 * 16), '=', '=']
  | [a, b] => [encodeSextet (a / 4), encodeSextet (a % 4 * 16 + b / 16),
      encodeSextet (b % 16 * 4), '=']
  | a :: b :: c :: rest =>
      encodeSextet (a / 4) :: encodeSextet (a % 4 * 16 + b / 16) ::
        encodeSextet (b % 16 * 4 + c / 64) :: encodeSextet (c % 64) ::
          arrayBufferToBase64 rest

def atobBytes : List Char → List Nat
  | c1 :: c2 :: c3 :: c4 :: rest =>
      match decodeChar c1, decodeChar c2, decodeChar c3, decodeChar c4 with
      | some a, some b, none, none => [a * 4 + b / 16]
      | some a, some b, some c, none => [a * 4 + b / 16, b % 16 * 16 + c / 4]
      | some a, some b, some c, some d =>
          (a * 4 + b / 16) :: (b % 16 * 16 + c / 4) :: (c % 4 * 64 + d) :: atobBytes rest
      | _, _, _, _ => []
  | _ => []

/-! ## Playback Engine scheduling (`playAudio`)

For each incoming `audio_stream` chunk the code builds a fresh buffer source
and calls `source.start(0)`: every chunk is scheduled to start at time 0.
There is no running next-start-time anywhere in `playAudio`. -/

/-- Duration in seconds of a decoded chunk: `bytes.length / 2` int16 samples
played at 16000 Hz. -/
def chunkDuration (bytes : List Nat) : ℚ := ((bytes.length / 2 : Nat) : ℚ) / 16000

/-- The start time the code passes for every chunk is the literal 0 of
`source.start(0)`. -/
def playAudioStartTimes (chunks : List (List Nat)) : List ℚ :=
  chunks.map (fun _ => 0)

/-- Modelled from the spec: the prescribed gap-free scheduling policy keeps a
running next-start time and starts each chunk where the previous one ends.
Used only as the contrast definition for the scheduling claim; the source
does not implement it. -/
def chainedStartTimesFrom (t : ℚ) : List ℚ → List ℚ
  | [] => []
  | d :: ds => t :: chainedStartTimesFrom (t + d) ds

/-- Modelled from the spec: chained start times beginning at 0. -/
def specNextStartTimes (durs : List ℚ) : List ℚ := chainedStartTimesFrom 0 durs

/-! ## Session state machine (`VoiceChatApp`)

State fields mirror `this.isConnected`, `this.isRecording`, `this.websocket`
(presence and `readyState`), `this.audioStream`, `this.audioWorkletNode`.
`sent` is the list of envelopes actually transmitted on the current socket,
in order.  `alerts` counts user-visible error reports (`alert`), `warns`
counts console warnings/errors, `played` counts chunks scheduled for
playback, and `thrown` counts exceptions that escaped to the caller. -/

inductive Msg where
  | userJoined
  | getHistory
  | userLeft
  | audioChunk
deriving Repr, DecidableEq

inductive WSReady where
  | connecting
  | opened
  | closed
deriving Repr, DecidableEq

structure App where
  isConnected : Bool
  isRecording : Bool
  wsPresent : Bool
  wsReady : WSReady
  audioStream : Bool
  audioWorkletNode : Bool
  sent : List Msg
  pendingMic : Nat
  alerts : Nat
  warns : Nat
  played : Nat
  thrown : Nat
deriving Repr, DecidableEq

def initApp : App :=
  { isConnected := false, isRecording := false, wsPresent := false,
    wsReady := WSReady.closed, audioStream := false, audioWorkletNode := false,
    sent := [], pendingMic := 0, alerts := 0, warns := 0, played := 0, thrown := 0 }

/-- `connect()`: with an empty room or user id, alert and stop before any
network action; otherwise create a fresh socket in CONNECTING state (the
transmission log tracks the current socket; the previous socket, if any, is
simply abandoned, exactly as in the source). -/
def connect (s : App) (idsOk : Bool) : App :=
  if idsOk = true then
    { s with wsPresent := true, wsReady := WSReady.connecting, sent := [] }
  else { s with alerts := s.alerts + 1 }

/-- `websocket.onopen`: set the connected flag and send `user_joined` then
`get_history` on the just-opened socket. -/
def onOpen (s : App) : App :=
  { s with isConnected := true, wsReady := WSReady.opened,
           sent := s.sent ++ [Msg.userJoined, Msg.getHistory] }

/-- `websocket.onclose`: clear the connected flag.  The `user_left` the
handler then sends goes to a CLOSED socket, which the platform discards
without throwing, so nothing is transmitted and nothing is raised. -/
def onClose (s : App) : App :=
  { s with isConnected := false, wsReady := WSReady.closed }

/-- `stopRecording()`: flush and drop the worklet node, release the stream,
clear the recording flag. -/
def stopRecording (s : App) : App :=
  { s with audioWorkletNode := false, audioStream := false, isRecording := false }

/-- `disconnect()`: send `user_left`, close and null the socket, then stop
recording if recording, then clear the connected flag.  A send on a
CONNECTING socket throws `InvalidStateError`, aborting the method before any
of its mutations. -/
def disconnect (s : App) : App :=
  if s.wsPresent = true then
    if s.wsReady = WSReady.connecting then { s with thrown := s.thrown + 1 }
    else if s.wsReady = WSReady.opened then
      if s.isRecording = true then
        stopRecording { s with
          sent := s.sent ++ [Msg.userLeft],
          wsReady := WSReady.closed, wsPresent := false, isConnected := false }
      else
        { s with
          sent := s.sent ++ [Msg.userLeft], wsReady := WSReady.closed,
          wsPresent := false, isConnected := false }
    else
      if s.isRecording = true then
        stopRecording { s with wsPresent := false, isConnected := false }
      else { s with wsPresent := false, isConnected := false }
  else
    if s.isRecording = true then stopRecording { s with isConnected := false }
    else { s with isConnected := false }

/-- The synchronous prefix of the async `startRecording()`: while not
connected, alert and return with no other effect; otherwise initiate the
`getUserMedia` request and suspend at the `await` (one more continuation is
now pending).  Everything after the `await` is `startRecordingResume`. -/
def startRecording (s : App) : App :=
  if s.isConnected = false then { s with alerts := s.alerts + 1 }
  else { s with pendingMic := s.pendingMic + 1 }

/-- The continuation of `startRecording()` after its `getUserMedia` `await`
settles: on success it stores the stream, builds the worklet node and sets
the recording flag — without re-checking `isConnected`, exactly as in the
source, which only checked it before the `await`; on denial/failure the
catch block reports the error and changes nothing else. -/
def startRecordingResume (s : App) (micOk : Bool) : App :=
  if micOk = true then
    { s with
      pendingMic := s.pendingMic - 1, audioStream := true,
      audioWorkletNode := true, isRecording := true }
  else { s with pendingMic := s.pendingMic - 1, alerts := s.alerts + 1 }

/-- `sendAudioData(audioData)`: unless the socket exists and is OPEN, warn
and return — nothing transmitted, nothing raised; otherwise encode and send
one `audio_chunk`. -/
def sendAudioData (s : App) : App :=
  if s.wsPresent = true ∧ s.wsReady = WSReady.opened then
    { s with sent := s.sent ++ [Msg.audioChunk] }
  else { s with warns := s.warns + 1 }

inductive Ev where
  | connect (idsOk : Bool)
  | wsOpen
  | wsClose
  | disconnect
  | startRec
  | micResume (micOk : Bool)
  | stopRec
  | workletAudio
deriving Repr, DecidableEq

/-- One event-loop task.  Button-driven events are gated by the `updateUI`
disabled flags (`disconnect` requires connected, the recording buttons
require connected plus the matching recording flag); `connect` is also
reachable from the Enter-key handlers, which call it unconditionally, so it
is never gated.  Socket events are gated by the current socket's state.
`startRec` is a start-recording click running the synchronous prefix of
`startRecording()`; `micResume` is the later task in which one pending
`getUserMedia` `await` settles and the continuation runs — other events,
`disconnect` included, can be scheduled between the two, as in the browser.
`workletAudio` requires the worklet node (whose port handler checks
`isConnected` and socket presence before calling `sendAudioData`). -/
def step (s : App) (e : Ev) : App :=
  match e with
  | Ev.connect idsOk => connect s idsOk
  | Ev.wsOpen =>
      if s.wsPresent = true ∧ s.wsReady = WSReady.connecting then onOpen s else s
  | Ev.wsClose =>
      if s.wsPresent = true ∧ s.wsReady ≠ WSReady.closed then onClose s else s
  | Ev.disconnect => if s.isConnected = true then disconnect s else s
  | Ev.startRec =>
      if s.isConnected = true ∧ s.isRecording = false then startRecording s else s
  | Ev.micResume micOk =>
      if 0 < s.pendingMic then startRecordingResume s micOk else s
  | Ev.stopRec =>
      if s.isConnected = true ∧ s.isRecording = true then stopRecording s else s
  | Ev.workletAudio =>
      if s.audioWorkletNode = true then
        if s.isConnected = true ∧ s.wsPresent = true then sendAudioData s else s
      else s

/-- The state after a sequence of events from application start. -/
def runApp (evs : List Ev) : App := evs.foldl step initApp

/-- The transmission-log invariant: an OPEN socket has `user_joined` then
`get_history` as its first two transmitted envelopes, the log is empty or
starts with that pair, and a CONNECTING socket has an empty log. -/
def SentInv (s : App) : Prop :=
  (s.wsReady = WSReady.opened → s.sent.take 2 = [Msg.userJoined, Msg.getHistory]) ∧
    (s.sent = [] ∨ s.sent.take 2 = [Msg.userJoined, Msg.getHistory]) ∧
    (s.wsReady = WSReady.connecting → s.sent = [])

/-! ## Incoming message handling

`websocket.onmessage` runs `JSON.parse` with no try/catch and hands the
result to `handleWebSocketMessage`; `playAudio` wraps its decode in
try/catch.  Transcript rendering (`new_text`, `text_history`) is view-layer
work that touches no session state. -/

inductive AudioPayload where
  | decodable (bytes : List Nat)
  | malformed
deriving Repr, DecidableEq

inductive Incoming where
  | malformedText
  | audioStream (p : AudioPayload)
  | newText
  | textHistory
  | unknownType
deriving Repr, DecidableEq

/-- One `onmessage` invocation.  `JSON.parse` throws on unparseable envelope
text and the handler has no try/catch, so the exception escapes
(`Except.error`).  Parsed envelopes dispatch by tag: `audio_stream` goes to
`playAudio`, whose try/catch logs and swallows a payload decode failure;
`new_text` / `text_history` only touch the transcript view; unknown tags are
logged and ignored. -/
def onMessage (s : App) (m : Incoming) : Except Unit App :=
  match m with
  | Incoming.malformedText => Except.error ()
  | Incoming.audioStream (AudioPayload.decodable _) =>
      Except.ok { s with played := s.played + 1 }
  | Incoming.audioStream AudioPayload.malformed =>
      Except.ok { s with warns := s.warns + 1 }
  | Incoming.newText => Except.ok s
  | Incoming.textHistory => Except.ok s
  | Incoming.unknownType => Except.ok s

/-- The browser delivery loop: an exception escaping one message handler is
caught at the task boundary and later messages are still delivered. -/
def receiveLoop (s : App) (ms : List Incoming) : App :=
  ms.foldl (fun t m =>
    match onMessage t m with
    | Except.ok t' => t'
    | Except.error _ => t) s

/-! ## Theorems -/

/-- One `process` call: every emitted frame is full-size. -/
theorem process_frames_full (s : AccSt) (b : List ℚ)
    (hfull : ∀ f ∈ s.frames, f.length = bufferSize) :
    ∀ f ∈ (process s b).frames, f.length = bufferSize := by
  intro f hf
  simp only [process, sendBuffer] at hf
  by_cases hc : bufferSize ≤ (s.buffer ++ b).length
  · rw [if_pos (by simpa using hc)] at hf
    rcases List.mem_append.mp hf with h | h
    · exact hfull f h
    · have hfe : f = (s.buffer ++ b).take bufferSize := by simpa using h
      subst hfe
      simp only [List.length_take]
      exact Nat.min_eq_left hc
  · rw [if_neg (by simpa using hc)] at hf
    exact hfull f hf

/-- One `process` call: frames plus residual buffer spell out exactly the
old frames, old buffer and the new block, in order. -/
theorem process_flatten (s : AccSt) (b : List ℚ) :
    (process s b).frames.flatten ++ (process s b).buffer
      = s.frames.flatten ++ s.buffer ++ b := by
  simp only [process, sendBuffer]
  by_cases hc : bufferSize ≤ (s.buffer ++ b).length
  · rw [if_pos (by simpa using hc)]
    simp [List.flatten_append, List.append_assoc]
  · rw [if_neg (by simpa using hc)]
    simp

/-- Every frame emitted by `process` (before any flush) is exactly full-size,
and the emitted frames followed by the residual buffer spell out exactly the
samples delivered so far. -/
theorem foldl_process_inv (blocks : List (List ℚ)) (s : AccSt)
    (hfull : ∀ f ∈ s.frames, f.length = bufferSize) :
    (∀ f ∈ (blocks.foldl process s).frames, f.length = bufferSize) ∧
      (blocks.foldl process s).frames.flatten ++ (blocks.foldl process s).buffer
        = s.frames.flatten ++ s.buffer ++ blocks.flatten := by
  induction blocks generalizing s with
  | nil => simpa using hfull
  | cons b bs ih =>
      obtain ⟨h1, h2⟩ := ih (process s b) (process_frames_full s b hfull)
      refine ⟨h1, ?_⟩
      simp only [List.foldl_cons] at *
      rw [h2, process_flatten]
      simp [List.append_assoc]

/-- C1, core statement: after blocks then flush, the frames concatenate to the
input, every pre-flush frame is full-size, and the flush contributes at most
one final frame (the residue). -/
theorem runAcc_spec (blocks : List (List ℚ)) :
    (runAcc blocks).frames.flatten = blocks.flatten ∧
      ((runAcc blocks).frames.map List.length).sum = (blocks.map List.length).sum ∧
      (∀ f ∈ (blocks.foldl process initAcc).frames, f.length = bufferSize) ∧
      ((runAcc blocks).frames = (blocks.foldl process initAcc).frames ∨
        (runAcc blocks).frames
          = (blocks.foldl process initAcc).frames ++ [(blocks.foldl process initAcc).buffer]) := by
  obtain ⟨hfull, hjoin⟩ := foldl_process_inv blocks initAcc (by simp [initAcc])
  have h0f : initAcc.frames = [] := rfl
  have h0b : initAcc.buffer = [] := rfl
  simp only [h0f, h0b, List.flatten_nil, List.nil_append] at hjoin
  have hflush : (runAcc blocks).frames.flatten = blocks.flatten ∧
      ((runAcc blocks).frames = (blocks.foldl process initAcc).frames ∨
        (runAcc blocks).frames
          = (blocks.foldl process initAcc).frames ++ [(blocks.foldl process initAcc).buffer]) := by
    unfold runAcc flushBuffer
    by_cases he : (blocks.foldl process initAcc).buffer.isEmpty
    · have hnil : (blocks.foldl process initAcc).buffer = [] := by
        simpa [List.isEmpty_iff] using he
      constructor
      · rw [if_pos he]
        simpa [hnil] using hjoin
      · left; rw [if_pos he]
    · constructor
      · rw [if_neg he]
        simp only [List.flatten_append, List.flatten_cons, List.flatten_nil,
          List.append_nil]
        simpa [List.append_assoc] using hjoin
      · right; rw [if_neg he]
  refine ⟨hflush.1, ?_, hfull, hflush.2⟩
  have := congrArg List.length hflush.1
  simpa [List.length_flatten] using this

/-- C1: for every sequence of `process` blocks followed by a flush, the frames
emitted by the accumulator have lengths summing to the total number of
delivered samples, concatenating them in emission order reproduces the input
sample sequence exactly, and every frame except possibly the final flushed one
has length exactly `bufferSize` (4096); this covers blocks smaller and larger
than the frame size. -/
theorem C1_frame_accumulator (blocks : List (List ℚ)) :
    ((runAcc blocks).frames.map List.length).sum = (blocks.map List.length).sum ∧
      (runAcc blocks).frames.flatten = blocks.flatten ∧
      (∀ f ∈ (runAcc blocks).frames.dropLast, f.length = bufferSize) ∧
      (∀ f ∈ (blocks.foldl process initAcc).frames, f.length = bufferSize) := by
  obtain ⟨hflat, hsum, hfull, hcases⟩ := runAcc_spec blocks
  refine ⟨hsum, hflat, ?_, hfull⟩
  intro f hf
  rcases hcases with h | h
  · rw [h] at hf
    exact hfull f (List.dropLast_sublist _ |>.subset hf)
  · rw [h] at hf
    rw [List.dropLast_concat] at hf
    exact hfull f hf

theorem truncQ_intCast (z : ℤ) : truncQ (z : ℚ) = z := by
  unfold truncQ
  by_cases h : 0 ≤ (z : ℚ)
  · rw [if_pos h, Int.floor_intCast]
  · rw [if_neg h, Int.ceil_intCast]

theorem clampQ_mem (f : ℚ) : -1 ≤ clampQ f ∧ clampQ f ≤ 1 := by
  unfold clampQ
  exact ⟨le_max_left _ _, max_le (by norm_num) (min_le_left _ _)⟩

/-- The scaled and truncated value of any clamped sample stays inside the
signed 16-bit range. -/
theorem scaled_bounds (q : ℚ) (h1 : -1 ≤ q) (h2 : q ≤ 1) :
    -32768 ≤ truncQ (if q < 0 then q * 32768 else q * 32767) ∧
      truncQ (if q < 0 then q * 32768 else q * 32767) ≤ 32767 := by
  unfold truncQ
  by_cases hneg : q < 0
  · rw [if_pos hneg]
    have hx1 : (-32768 : ℚ) ≤ q * 32768 := by nlinarith
    have hx2 : q * 32768 < 0 := by nlinarith
    rw [if_neg (by linarith)]
    constructor
    · have hle := Int.le_ceil (q * 32768)
      have hcast : ((-32768 : ℤ) : ℚ) ≤ (⌈q * 32768⌉ : ℚ) := by push_cast; linarith
      exact_mod_cast hcast
    · have hc0 : ⌈q * 32768⌉ ≤ (0 : ℤ) := Int.ceil_le.mpr (by push_cast; linarith)
      omega
  · rw [if_neg hneg]
    push_neg at hneg
    have hx1 : (0 : ℚ) ≤ q * 32767 := by nlinarith
    have hx2 : q * 32767 ≤ 32767 := by nlinarith
    rw [if_pos hx1]
    constructor
    · have hf0 : (0 : ℤ) ≤ ⌊q * 32767⌋ := Int.floor_nonneg.mpr hx1
      omega
    · have hfl := Int.floor_le (q * 32767)
      have hcast : ((⌊q * 32767⌋ : ℤ) : ℚ) ≤ ((32767 : ℤ) : ℚ) := by push_cast; linarith
      exact_mod_cast hcast

theorem rawInt16_bounds (f : ℚ) : -32768 ≤ rawInt16 f ∧ rawInt16 f ≤ 32767 := by
  obtain ⟨h1, h2⟩ := clampQ_mem f
  exact scaled_bounds (clampQ f) h1 h2

theorem wrapInt16_eq_self (n : ℤ) (h1 : -32768 ≤ n) (h2 : n ≤ 32767) :
    wrapInt16 n = n := by
  unfold wrapInt16
  omega

/-- On a finite sample the encoder is the wrapped raw value. -/
theorem floatToInt16Sample_num (f : ℚ) :
    floatToInt16Sample (JSNum.num f) = wrapInt16 (rawInt16 f) := rfl

/-- Every encoded sample — finite, `NaN` or infinite input alike — lies in
the signed 16-bit range. -/
theorem floatToInt16Sample_range (x : JSNum) :
    -32768 ≤ floatToInt16Sample x ∧ floatToInt16Sample x ≤ 32767 := by
  cases x with
  | num f =>
      obtain ⟨h1, h2⟩ := rawInt16_bounds f
      rw [floatToInt16Sample_num, wrapInt16_eq_self _ h1 h2]
      exact ⟨h1, h2⟩
  | nan => exact ⟨by decide, by decide⟩
  | inf =>
      have h := scaled_bounds (max (-1 : ℚ) 1) (le_max_left _ _)
        (max_le (by norm_num) le_rfl)
      show -32768 ≤ wrapInt16 (truncQ _) ∧ wrapInt16 (truncQ _) ≤ 32767
      rw [wrapInt16_eq_self _ h.1 h.2]
      exact h
  | negInf =>
      have h := scaled_bounds (-1 : ℚ) le_rfl (by norm_num)
      show -32768 ≤ wrapInt16 (truncQ _) ∧ wrapInt16 (truncQ _) ≤ 32767
      rw [wrapInt16_eq_self _ h.1 h.2]
      exact h

/-- C10: `floatToInt16` is total on arbitrary JavaScript numbers (values
outside [-1, 1], `NaN` and infinities included), preserves the input length
exactly, and every output element is an integer in [-32768, 32767]. -/
theorem C10_floatToInt16_total_range (l : List JSNum) :
    (floatToInt16 l).length = l.length ∧
      ∀ x ∈ floatToInt16 l, -32768 ≤ x ∧ x ≤ 32767 := by
  refine ⟨by simp [floatToInt16], ?_⟩
  intro x hx
  simp only [floatToInt16, List.mem_map] at hx
  obtain ⟨y, _, rfl⟩ := hx
  exact floatToInt16Sample_range y

/-- C4 counterexample: at f = 65533/65536 (inside [-1, 1]) the decoded value
32765/32768 differs from f by 3/65536, which exceeds the claimed quantization
step 1/32768 = 2/65536; the claim as stated is false, because non-negative
samples are scaled by 32767 on encode but divided by 32768 on decode. -/
theorem C4_roundtrip_counterexample :
    ¬ |int16ToFloatSample (floatToInt16Sample (JSNum.num (65533 / 65536))) -
        65533 / 65536| ≤ 1 / 32768 := by
  have hclamp : clampQ (65533 / 65536) = 65533 / 65536 := by
    unfold clampQ
    rw [min_eq_right (by norm_num), max_eq_right (by norm_num)]
  have hraw : rawInt16 (65533 / 65536) = 32765 := by
    unfold rawInt16
    rw [hclamp, if_neg (by norm_num)]
    have hval : (65533 / 65536 : ℚ) * 32767 = 2147319811 / 65536 := by norm_num
    rw [hval]
    unfold truncQ
    rw [if_pos (by norm_num)]
    apply Int.floor_eq_iff.mpr
    constructor
    · norm_num
    · norm_num
  have henc : floatToInt16Sample (JSNum.num (65533 / 65536)) = 32765 := by
    rw [floatToInt16Sample_num, hraw, wrapInt16_eq_self _ (by norm_num) (by norm_num)]
  rw [henc]
  unfold int16ToFloatSample
  rw [show ((32765 : ℤ) : ℚ) / 32768 - 65533 / 65536 = -(3 / 65536) by push_cast; ring]
  rw [abs_neg, abs_of_nonneg (by norm_num)]
  norm_num

/-- C4 amended: for f in [-1, 1] the decode of the encode differs from f by
at most two quantization steps (2/32768; one step comes from truncation, a
second from the 32767-versus-32768 scale mismatch on non-negative samples);
for every finite f the encoder clamps first, so the encoded integer lies in
[-32768, 32767] and the 16-bit store never wraps around. -/
theorem C4_codec_roundtrip_amended (f : ℚ) :
    ((-1 ≤ f ∧ f ≤ 1) →
        |int16ToFloatSample (floatToInt16Sample (JSNum.num f)) - f| ≤ 2 / 32768) ∧
      -32768 ≤ floatToInt16Sample (JSNum.num f) ∧
      floatToInt16Sample (JSNum.num f) ≤ 32767 ∧
      floatToInt16Sample (JSNum.num f) = rawInt16 f := by
  obtain ⟨hb1, hb2⟩ := rawInt16_bounds f
  have hnw : floatToInt16Sample (JSNum.num f) = rawInt16 f := by
    rw [floatToInt16Sample_num, wrapInt16_eq_self _ hb1 hb2]
  refine ⟨?_, by rw [hnw]; exact hb1, by rw [hnw]; exact hb2, hnw⟩
  rintro ⟨h1, h2⟩
  rw [hnw]
  have hcl : clampQ f = f := by
    unfold clampQ
    rw [min_eq_right h2, max_eq_right h1]
  unfold rawInt16 int16ToFloatSample
  rw [hcl]
  by_cases hneg : f < 0
  · rw [if_pos hneg]
    have ht : truncQ (f * 32768) = ⌈f * 32768⌉ := by
      unfold truncQ
      rw [if_neg (by nlinarith)]
    rw [ht, abs_le]
    have hc1 := Int.le_ceil (f * 32768)
    have hc2 := Int.ceil_lt_add_one (f * 32768)
    constructor
    · have hcast : f * 32768 ≤ ((⌈f * 32768⌉ : ℤ) : ℚ) := hc1
      linarith
    · have hcast : ((⌈f * 32768⌉ : ℤ) : ℚ) < f * 32768 + 1 := hc2
      linarith
  · rw [if_neg hneg]
    push_neg at hneg
    have ht : truncQ (f * 32767) = ⌊f * 32767⌋ := by
      unfold truncQ
      rw [if_pos (by nlinarith)]
    rw [ht, abs_le]
    have hf1 := Int.floor_le (f * 32767)
    have hf2 := Int.lt_floor_add_one (f * 32767)
    constructor
    · have hcast : f * 32767 < ((⌊f * 32767⌋ : ℤ) : ℚ) + 1 := hf2
      linarith
    · have hcast : ((⌊f * 32767⌋ : ℤ) : ℚ) ≤ f * 32767 := hf1
      linarith

/-- C4 amended, witness at f = 1/2. -/
theorem C4_codec_roundtrip_amended_witness :
    |int16ToFloatSample (floatToInt16Sample (JSNum.num (1 / 2))) - 1 / 2| ≤ 2 / 32768 :=
  (C4_codec_roundtrip_amended (1 / 2)).1 ⟨by norm_num, by norm_num⟩

theorem decodeChar_encodeSextet : ∀ n < 64, decodeChar (encodeSextet n) = some n := by
  decide

theorem decodeChar_pad : decodeChar '=' = none := by decide

/-- C5: decoding the transport-text encoding of any byte sequence — empty
sequences and arbitrary byte values included — yields exactly the original
bytes. -/
theorem C5_base64_roundtrip (bs : List Nat) (h : ∀ x ∈ bs, x < 256) :
    atobBytes (arrayBufferToBase64 bs) = bs := by
  induction bs using arrayBufferToBase64.induct with
  | case1 => rfl
  | case2 a =>
      have ha : a < 256 := h a (by simp)
      simp only [arrayBufferToBase64, atobBytes]
      rw [decodeChar_encodeSextet _ (by omega), decodeChar_encodeSextet _ (by omega),
        decodeChar_pad]
      simp only [List.cons.injEq, and_true]
      omega
  | case3 a b =>
      have ha : a < 256 := h a (by simp)
      have hb : b < 256 := h b (by simp)
      simp only [arrayBufferToBase64, atobBytes]
      rw [decodeChar_encodeSextet _ (by omega), decodeChar_encodeSextet _ (by omega),
        decodeChar_encodeSextet _ (by omega), decodeChar_pad]
      simp only [List.cons.injEq, and_true]
      omega
  | case4 a b c rest ih =>
      have ha : a < 256 := h a (by simp)
      have hb : b < 256 := h b (by simp)
      have hc : c < 256 := h c (by simp)
      have hrest : ∀ x ∈ rest, x < 256 := fun x hx => h x (by simp [hx])
      simp only [arrayBufferToBase64, atobBytes]
      rw [decodeChar_encodeSextet _ (by omega), decodeChar_encodeSextet _ (by omega),
        decodeChar_encodeSextet _ (by omega), decodeChar_encodeSextet _ (by omega)]
      simp only [List.cons.injEq]
      exact ⟨by omega, by omega, by omega, ih hrest⟩

/-- C5 witness: round trip on a concrete byte sequence with non-text-safe
values. -/
theorem C5_base64_roundtrip_witness :
    atobBytes (arrayBufferToBase64 [0, 255, 77, 10]) = [0, 255, 77, 10] :=
  C5_base64_roundtrip [0, 255, 77, 10] (by decide)

/-- C3: with three consecutive 1-second chunks (32000 bytes each at 16 kHz
PCM16) the code schedules every chunk at time 0 — the intervals coincide
instead of being back-to-back — while the prescribed next-start-time policy
would schedule them at 0, 1 and 2 seconds.  The code contradicts the claim;
the spec itself flags the time-zero start as a defect and prescribes the
chained policy as intended behavior. -/
theorem C3_playback_schedule_bug :
    playAudioStartTimes (List.replicate 3 (List.replicate 32000 0)) = [0, 0, 0] ∧
      specNextStartTimes ((List.replicate 3 (List.replicate 32000 0)).map chunkDuration)
        = [0, 1, 2] ∧
      playAudioStartTimes (List.replicate 3 (List.replicate 32000 0))
        ≠ specNextStartTimes ((List.replicate 3 (List.replicate 32000 0)).map chunkDuration) := by
  have hd : chunkDuration (List.replicate 32000 0) = 1 := by
    unfold chunkDuration
    norm_num
  have h1 : playAudioStartTimes (List.replicate 3 (List.replicate 32000 0)) = [0, 0, 0] := rfl
  have h2 : specNextStartTimes ((List.replicate 3 (List.replicate 32000 0)).map chunkDuration)
      = [0, 1, 2] := by
    show specNextStartTimes
        [chunkDuration (List.replicate 32000 0), chunkDuration (List.replicate 32000 0),
          chunkDuration (List.replicate 32000 0)] = [0, 1, 2]
    rw [hd]
    simp only [specNextStartTimes, chainedStartTimesFrom]
    norm_num
  refine ⟨h1, h2, ?_⟩
  rw [h1, h2]
  intro hco
  have : (0 : ℚ) = 1 := by
    have := List.cons.inj hco
    exact (List.cons.inj this.2).1
  norm_num at this

theorem take_two_append (l m : List Msg)
    (h : l.take 2 = [Msg.userJoined, Msg.getHistory]) :
    (l ++ m).take 2 = [Msg.userJoined, Msg.getHistory] := by
  have hlen : 2 ≤ l.length := by
    by_contra hlt
    push_neg at hlt
    have hall : l.take 2 = l := List.take_of_length_le (by omega)
    rw [hall] at h
    have := congrArg List.length h
    simp at this
    omega
  rw [List.take_append_of_le_length hlen]
  exact h

/-- `disconnect` either leaves the log and readyState unchanged, or (OPEN
socket) appends exactly `user_left` and closes. -/
theorem disconnect_sent_ready (s : App) :
    ((disconnect s).sent = s.sent ∧ (disconnect s).wsReady = s.wsReady) ∨
      (s.wsReady = WSReady.opened ∧ (disconnect s).sent = s.sent ++ [Msg.userLeft] ∧
        (disconnect s).wsReady = WSReady.closed) := by
  unfold disconnect
  by_cases hp : s.wsPresent = true
  · rw [if_pos hp]
    by_cases hc : s.wsReady = WSReady.connecting
    · rw [if_pos hc]
      exact Or.inl ⟨rfl, rfl⟩
    · rw [if_neg hc]
      by_cases hop : s.wsReady = WSReady.opened
      · rw [if_pos hop]
        by_cases hr : s.isRecording = true
        · rw [if_pos hr]
          exact Or.inr ⟨hop, rfl, rfl⟩
        · rw [if_neg hr]
          exact Or.inr ⟨hop, rfl, rfl⟩
      · rw [if_neg hop]
        by_cases hr : s.isRecording = true
        · rw [if_pos hr]
          exact Or.inl ⟨rfl, rfl⟩
        · rw [if_neg hr]
          exact Or.inl ⟨rfl, rfl⟩
  · rw [if_neg hp]
    by_cases hr : s.isRecording = true
    · rw [if_pos hr]
      exact Or.inl ⟨rfl, rfl⟩
    · rw [if_neg hr]
      exact Or.inl ⟨rfl, rfl⟩

theorem step_preserves_sentInv (s : App) (e : Ev) (hs : SentInv s) :
    SentInv (step s e) := by
  obtain ⟨h1, h2, h3⟩ := hs
  cases e with
  | connect idsOk =>
      simp only [step, connect]
      by_cases hid : idsOk = true
      · rw [if_pos hid]
        exact ⟨fun h => WSReady.noConfusion h, Or.inl rfl, fun _ => rfl⟩
      · rw [if_neg hid]
        exact ⟨h1, h2, h3⟩
  | wsOpen =>
      simp only [step]
      by_cases hg : s.wsPresent = true ∧ s.wsReady = WSReady.connecting
      · rw [if_pos hg]
        have hempty : s.sent = [] := h3 hg.2
        refine ⟨fun _ => ?_, Or.inr ?_, fun h => WSReady.noConfusion h⟩
        · show (s.sent ++ [Msg.userJoined, Msg.getHistory]).take 2
              = [Msg.userJoined, Msg.getHistory]
          rw [hempty]
          rfl
        · show (s.sent ++ [Msg.userJoined, Msg.getHistory]).take 2
              = [Msg.userJoined, Msg.getHistory]
          rw [hempty]
          rfl
      · rw [if_neg hg]
        exact ⟨h1, h2, h3⟩
  | wsClose =>
      simp only [step]
      by_cases hg : s.wsPresent = true ∧ s.wsReady ≠ WSReady.closed
      · rw [if_pos hg]
        exact ⟨fun h => WSReady.noConfusion h, h2, fun h => WSReady.noConfusion h⟩
      · rw [if_neg hg]
        exact ⟨h1, h2, h3⟩
  | disconnect =>
      simp only [step]
      by_cases hg : s.isConnected = true
      · rw [if_pos hg]
        rcases disconnect_sent_ready s with ⟨hse, hrd⟩ | ⟨hop, hse, hrd⟩
        · refine ⟨fun h => ?_, ?_, fun h => ?_⟩
          · rw [hse]
            exact h1 (hrd.symm.trans h)
          · rw [hse]
            exact h2
          · rw [hse]
            exact h3 (hrd.symm.trans h)
        · refine ⟨fun h => ?_, Or.inr ?_, fun h => ?_⟩
          · rw [hse]
            exact take_two_append _ _ (h1 hop)
          · rw [hse]
            exact take_two_append _ _ (h1 hop)
          · exact absurd (hrd.symm.trans h) (fun hco => WSReady.noConfusion hco)
      · rw [if_neg hg]
        exact ⟨h1, h2, h3⟩
  | startRec =>
      simp only [step]
      by_cases hg : s.isConnected = true ∧ s.isRecording = false
      · rw [if_pos hg]
        simp only [startRecording]
        by_cases hd : s.isConnected = false
        · rw [if_pos hd]
          exact ⟨h1, h2, h3⟩
        · rw [if_neg hd]
          exact ⟨h1, h2, h3⟩
      · rw [if_neg hg]
        exact ⟨h1, h2, h3⟩
  | micResume micOk =>
      simp only [step]
      by_cases hp : 0 < s.pendingMic
      · rw [if_pos hp]
        simp only [startRecordingResume]
        by_cases hm : micOk = true
        · rw [if_pos hm]
          exact ⟨h1, h2, h3⟩
        · rw [if_neg hm]
          exact ⟨h1, h2, h3⟩
      · rw [if_neg hp]
        exact ⟨h1, h2, h3⟩
  | stopRec =>
      simp only [step]
      by_cases hg : s.isConnected = true ∧ s.isRecording = true
      · rw [if_pos hg]
        exact ⟨h1, h2, h3⟩
      · rw [if_neg hg]
        exact ⟨h1, h2, h3⟩
  | workletAudio =>
      simp only [step]
      by_cases hw : s.audioWorkletNode = true
      · rw [if_pos hw]
        by_cases hg : s.isConnected = true ∧ s.wsPresent = true
        · rw [if_pos hg]
          simp only [sendAudioData]
          by_cases ho : s.wsPresent = true ∧ s.wsReady = WSReady.opened
          · rw [if_pos ho]
            have ht : s.sent.take 2 = [Msg.userJoined, Msg.getHistory] := h1 ho.2
            refine ⟨fun _ => ?_, Or.inr ?_, fun h => ?_⟩
            · show (s.sent ++ [Msg.audioChunk]).take 2 = [Msg.userJoined, Msg.getHistory]
              exact take_two_append _ _ ht
            · show (s.sent ++ [Msg.audioChunk]).take 2 = [Msg.userJoined, Msg.getHistory]
              exact take_two_append _ _ ht
            · exact absurd (ho.2.symm.trans h) (fun hco => WSReady.noConfusion hco)
          · rw [if_neg ho]
            exact ⟨h1, h2, h3⟩
        · rw [if_neg hg]
          exact ⟨h1, h2, h3⟩
      · rw [if_neg hw]
        exact ⟨h1, h2, h3⟩

theorem foldl_step_sentInv (evs : List Ev) (s : App) (hs : SentInv s) :
    SentInv (evs.foldl step s) := by
  induction evs generalizing s with
  | nil => exact hs
  | cons e es ih =>
      simp only [List.foldl_cons]
      exact ih (step s e) (step_preserves_sentInv s e hs)

/-- C6: on every reachable state, the current channel's transmission log is
empty or begins with `user_joined` followed by `get_history` — the first two
envelopes ever sent on a successfully opened connection are those two, in
that order, before any other envelope. -/
theorem C6_handshake_first (evs : List Ev) :
    (runApp evs).sent = [] ∨
      (runApp evs).sent.take 2 = [Msg.userJoined, Msg.getHistory] :=
  (foldl_step_sentInv evs initApp
    ⟨fun h => WSReady.noConfusion h, Or.inl rfl, fun _ => rfl⟩).2.1

/-- C8: calling `startRecording()` while disconnected reports a user-visible
error and changes nothing else — the guard branch is synchronous (no await
is reached, no `getUserMedia` request is made), the returned state differs
from the input only in the alert count; connection flag, recording flag,
audio stream and worklet node are untouched, and the function returns
normally (total, no throw). -/
theorem C8_startRecording_disconnected (s : App)
    (h : s.isConnected = false) :
    startRecording s = { s with alerts := s.alerts + 1 } := by
  unfold startRecording
  rw [if_pos h]

/-- C8 witness: at the freshly started (disconnected) application state. -/
theorem C8_startRecording_disconnected_witness :
    startRecording initApp = { initApp with alerts := initApp.alerts + 1 } :=
  C8_startRecording_disconnected initApp rfl

/-- C9 counterexample: connect, open, connect again (the Enter-key handler
calls `connect()` unconditionally, replacing the socket with a CONNECTING
one while `isConnected` is still true), then `disconnect()`: its `user_left`
send is issued on a CONNECTING socket, which raises `InvalidStateError` to
the caller — so a send on a non-open channel is not always raise-free.
Nothing was transmitted on the new socket. -/
theorem C9_send_connecting_raises_counterexample :
    (runApp [Ev.connect true, Ev.wsOpen, Ev.connect true, Ev.disconnect]).thrown = 1 ∧
      (runApp [Ev.connect true, Ev.wsOpen, Ev.connect true]).thrown = 0 ∧
      (runApp [Ev.connect true, Ev.wsOpen, Ev.connect true, Ev.disconnect]).sent = [] := by
  decide

/-- C9 amended: the audio-chunk path is raise-free as claimed — with the
socket absent or not OPEN, `sendAudioData` transmits nothing, changes no
session state besides a console warning, and returns normally; the close
handler's `user_left` on a CLOSED socket is likewise discarded without
raising.  Only `disconnect()`'s `user_left` on a CONNECTING socket (see the
counterexample) can raise. -/
theorem C9_send_not_open_amended (s : App)
    (h : ¬(s.wsPresent = true ∧ s.wsReady = WSReady.opened)) :
    sendAudioData s = { s with warns := s.warns + 1 } ∧
      (onClose s).sent = s.sent ∧ (onClose s).thrown = s.thrown := by
  unfold sendAudioData
  rw [if_neg h]
  exact ⟨rfl, rfl, rfl⟩

/-- C9 amended, witness: at the initial state (no socket). -/
theorem C9_send_not_open_amended_witness :
    sendAudioData initApp = { initApp with warns := initApp.warns + 1 } :=
  (C9_send_not_open_amended initApp (by decide)).1

/-- C7 counterexample: an unparseable envelope makes `JSON.parse` throw
inside the `onmessage` handler, which has no try/catch — the envelope is not
dropped silently, the handler raises to the receive loop. -/
theorem C7_malformed_text_raises_counterexample :
    onMessage initApp Incoming.malformedText = Except.error () := rfl

/-- C7 amended: a malformed audio payload is dropped inside `playAudio`'s
try/catch — logged, no raise, no session-state change beyond the log count —
while unparseable envelope text escapes the handler as an exception (with no
state mutation); in both cases the event loop continues and every subsequent
envelope is processed exactly as if the offending one had not arrived. -/
theorem C7_malformed_envelope_amended (s : App) (rest : List Incoming) :
    onMessage s Incoming.malformedText = Except.error () ∧
      receiveLoop s (Incoming.malformedText :: rest) = receiveLoop s rest ∧
      onMessage s (Incoming.audioStream AudioPayload.malformed)
        = Except.ok { s with warns := s.warns + 1 } ∧
      receiveLoop s (Incoming.audioStream AudioPayload.malformed :: rest)
        = receiveLoop { s with warns := s.warns + 1 } rest :=
  ⟨rfl, rfl, rfl, rfl⟩
